import Mathlib

/-!
Shallow embedding of `proxy_benchmark.py` (repository rriordan/Proxy-Master).

Machine floats of the source are modelled as rationals (`ℚ`); byte counts as
`ℕ`.  Network behaviour is abstracted into oracles (`NetResult`,
`resp : String → Bool`): each concurrent probe's outcome is a pure function of
its endpoint, and completion order of `asyncio.as_completed` is abstracted to
input order (all properties proved below are order-insensitive where the
source is nondeterministic).
-/

namespace ProxyBenchmark

/-- SETTINGS constant `HISTORY_MAX_RUNS = 10` (keep last N runs per proxy). -/
def HISTORY_MAX_RUNS : Nat := 10

/-- SETTINGS constant `MIN_SCORE_THRESHOLD = 0.5`. -/
def MIN_SCORE_THRESHOLD : ℚ := 1/2

/-- SETTINGS constant `MIN_RESPONSE_RATE = 50.0` (percent). -/
def MIN_RESPONSE_RATE : ℚ := 50

/-- SETTINGS constant `MIN_PROXIES_COUNT = 75`. -/
def MIN_PROXIES_COUNT : Nat := 75

/-- Outcome of the network transaction inside `try_proxy`, abstracted: either
the GET succeeded with status 200/206 and the body loop read `total` bytes in
`elapsed` seconds, or anything raised (non-2xx/206 status, connection error,
timeout), which the bare `except` collapses into one failure case. -/
inductive NetResult where
  | ok (total : Nat) (elapsed : ℚ)
  | fail
deriving DecidableEq

/-- The tuple returned by `try_proxy`:
`(proxy, scheme, latency, speed, score, success)`.  `lat`/`spd` are `None`
(`Option.none`) on failure. -/
structure ProbeResult where
  proxy : String
  scheme : String
  lat : Option ℚ
  spd : Option ℚ
  score : ℚ
  success : Bool
deriving DecidableEq

/-- `try_proxy` (proxy_benchmark.py lines 87-109).  On success:
`speed = total/elapsed/1024/1024`, `latency = elapsed`,
`score = speed/(latency + 0.01)`, and the tuple
`(proxy, scheme, latency, speed, score, True)` is returned.  On any
exception the tuple `(proxy, scheme, None, None, 0.0, False)` is returned. -/
def try_proxy (proxy scheme : String) (net : NetResult) : ProbeResult :=
  match net with
  | .ok total elapsed =>
      let speed : ℚ := (total : ℚ) / elapsed / 1024 / 1024
      let latency : ℚ := elapsed
      let score : ℚ := speed / (latency + 1/100)
      ⟨proxy, scheme, some latency, some speed, score, true⟩
  | .fail => ⟨proxy, scheme, none, none, 0, false⟩

/-- `run_tests` (lines 111-123): one `try_proxy` task per input proxy; every
task's result is appended to `results` (`as_completed` order abstracted to
input order — the theorems below are permutation-invariant). -/
def run_tests (net : String → NetResult) (proxies : List String) (scheme : String) :
    List ProbeResult :=
  proxies.map fun p => try_proxy p scheme (net p)

/-- `pre_screen_proxies` (lines 65-85): each proxy is probed once
(`pre_screen_proxy`, lines 51-63) and only the responsive ones are appended to
`responsive_proxies`; `resp` is the oracle for "request completed with status
200 before the timeout". -/
def pre_screen_proxies (resp : String → Bool) (proxies : List String) : List String :=
  proxies.filter resp

theorem try_proxy_proxy (p s : String) (n : NetResult) : (try_proxy p s n).proxy = p := by
  cases n <;> rfl

theorem try_proxy_scheme (p s : String) (n : NetResult) : (try_proxy p s n).scheme = s := by
  cases n <;> rfl

/-- C5: for every successful Performance Stage probe the recorded score equals
the recorded throughput divided by the recorded latency plus 0.01; the
spec's worked example (throughput 5.0 MB/s at latency 1.0 s, i.e. 5 MiB read
in 1 s, scores 5.0/1.01); and every failed probe carries score 0.0 with
latency and throughput absent. -/
theorem try_proxy_score_formula (proxy scheme : String) (total : Nat) (elapsed lat spd : ℚ) :
    ((try_proxy proxy scheme (.ok total elapsed)).lat = some lat →
     (try_proxy proxy scheme (.ok total elapsed)).spd = some spd →
     (try_proxy proxy scheme (.ok total elapsed)).score = spd / (lat + 1/100)) ∧
    (try_proxy "1.2.3.4:8080" "http" (.ok (5 * 1024 * 1024) 1)).score = 5 / (101/100) ∧
    (try_proxy proxy scheme .fail).score = 0 ∧
    (try_proxy proxy scheme .fail).lat = none ∧
    (try_proxy proxy scheme .fail).spd = none := by
  refine ⟨?_, by norm_num [try_proxy], rfl, rfl, rfl⟩
  intro hl hs
  simp only [try_proxy] at hl hs ⊢
  rw [← Option.some_inj.mp hl, ← Option.some_inj.mp hs]

/-- Witness for `try_proxy_score_formula` at total = 5 MiB, elapsed = 1 s. -/
theorem try_proxy_score_formula_witness :
    (try_proxy "a" "http" (.ok (5 * 1024 * 1024) 1)).score = 5 / (1 + 1/100) :=
  (try_proxy_score_formula "a" "http" (5 * 1024 * 1024) 1 1 5).1
    (by norm_num [try_proxy]) (by norm_num [try_proxy])

/-- C6: the Performance Stage returns exactly one outcome per input endpoint:
the multiset of proxies in the results is exactly the input list, failed
attempts are returned as explicit failure outcomes rather than dropped, while
the Prescreen Stage returns exactly the responsive subset of its input. -/
theorem run_tests_one_outcome_per_input (net : String → NetResult)
    (proxies : List String) (scheme : String) (resp : String → Bool) :
    ((run_tests net proxies scheme).map (fun r => r.proxy)).Perm proxies ∧
    (run_tests net proxies scheme).length = proxies.length ∧
    (∀ p ∈ proxies, net p = .fail →
        (⟨p, scheme, none, none, 0, false⟩ : ProbeResult) ∈ run_tests net proxies scheme) ∧
    (∀ p, p ∈ pre_screen_proxies resp proxies ↔ p ∈ proxies ∧ resp p = true) := by
  refine ⟨?_, by simp [run_tests], ?_, ?_⟩
  · have h : ∀ l : List String,
        ((l.map fun p => try_proxy p scheme (net p)).map fun r => r.proxy) = l := by
      intro l
      induction l with
      | nil => rfl
      | cons a t ih => simp [try_proxy_proxy, ih]
    rw [run_tests, h]
  · intro p hp hfail
    have : try_proxy p scheme (net p) ∈ run_tests net proxies scheme :=
      List.mem_map_of_mem _ hp
    rwa [hfail] at this
  · intro p
    simp [pre_screen_proxies, List.mem_filter]

/-- Witness for `run_tests_one_outcome_per_input` on a two-proxy run where the
second endpoint fails. -/
theorem run_tests_one_outcome_per_input_witness :
    (("b" ∈ (["a", "b"] : List String)) ∧
      ((fun p => if p = "a" then NetResult.ok 1 1 else NetResult.fail) "b" = .fail) ∧
      (⟨"b", "http", none, none, 0, false⟩ : ProbeResult) ∈
        run_tests (fun p => if p = "a" then NetResult.ok 1 1 else NetResult.fail)
          ["a", "b"] "http") ∧
    ("a" ∈ pre_screen_proxies (fun p => p = "a") ["a", "b"] ↔
      "a" ∈ (["a", "b"] : List String) ∧ (decide ("a" = "a")) = true) := by
  have h := run_tests_one_outcome_per_input
    (fun p => if p = "a" then NetResult.ok 1 1 else NetResult.fail)
    ["a", "b"] "http" (fun p => decide (p = "a"))
  refine ⟨⟨by decide, by decide, h.2.2.1 "b" (by decide) (by decide)⟩, h.2.2.2 "a"⟩

/-- Protocol labels used by `remove_duplicates`. -/
inductive Proto where
  | http
  | socks5
  | socks4
deriving DecidableEq

/-- The per-address branch of `remove_duplicates` (lines 161-187): `sources`
is the list of input sets containing the address; with more than one source
the priority is SOCKS5 then HTTP then SOCKS4, with exactly one source the
address passes through to that protocol.  The three Booleans are membership
of the address in `http_ips`, `socks5_ips`, `socks4_ips`. -/
def dedup_target (inHttp inS5 inS4 : Bool) : Proto :=
  let sources : Nat :=
    (if inHttp then 1 else 0) + (if inS5 then 1 else 0) + (if inS4 then 1 else 0)
  if 1 < sources then
    if inS5 then .socks5 else if inHttp then .http else .socks4
  else
    if inHttp then .http else if inS5 then .socks5 else .socks4

/-- `remove_duplicates` (lines 133-193).  `http_ips`, `socks5_ips`,
`socks4_ips` are the input lists viewed as sets; `all_ips` is their union
(Python set iteration order abstracted to first-occurrence order — the
proved properties are membership statements, insensitive to that order).
The loop appending each address to exactly one of `final_http`,
`final_socks5`, `final_socks4` according to `dedup_target` is rendered as
three filters of `all_ips`. -/
def remove_duplicates (http_list socks5_list socks4_list : List String) :
    List String × List String × List String :=
  let all_ips := (http_list ++ socks5_list ++ socks4_list).dedup
  let target := fun ip =>
    dedup_target (decide (ip ∈ http_list)) (decide (ip ∈ socks5_list))
      (decide (ip ∈ socks4_list))
  ( all_ips.filter fun ip => decide (target ip = .http)
  , all_ips.filter fun ip => decide (target ip = .socks5)
  , all_ips.filter fun ip => decide (target ip = .socks4) )

theorem dedup_target_socks5 (a b c : Bool) : dedup_target a b c = .socks5 ↔ b = true := by
  revert a b c
  decide

theorem dedup_target_http (a b c : Bool) : dedup_target a b c = .http ↔ a = true ∧ b = false := by
  revert a b c
  decide

theorem dedup_target_socks4 (a b c : Bool) :
    c = true → (dedup_target a b c = .socks4 ↔ a = false ∧ b = false) := by
  revert a b c
  decide

/-- C3: the Deduplicator assigns every address to SOCKS5 when it is in the
SOCKS5 input, else to HTTP when it is in the HTTP input, else to SOCKS4; the
three outputs are pairwise disjoint and their union is the union of the three
inputs. -/
theorem remove_duplicates_spec (http_list socks5_list socks4_list : List String) :
    (∀ x, x ∈ (remove_duplicates http_list socks5_list socks4_list).2.1 ↔
        x ∈ socks5_list) ∧
    (∀ x, x ∈ (remove_duplicates http_list socks5_list socks4_list).1 ↔
        x ∈ http_list ∧ x ∉ socks5_list) ∧
    (∀ x, x ∈ (remove_duplicates http_list socks5_list socks4_list).2.2 ↔
        x ∈ socks4_list ∧ x ∉ socks5_list ∧ x ∉ http_list) ∧
    (∀ x, ¬(x ∈ (remove_duplicates http_list socks5_list socks4_list).1 ∧
        x ∈ (remove_duplicates http_list socks5_list socks4_list).2.1)) ∧
    (∀ x, ¬(x ∈ (remove_duplicates http_list socks5_list socks4_list).1 ∧
        x ∈ (remove_duplicates http_list socks5_list socks4_list).2.2)) ∧
    (∀ x, ¬(x ∈ (remove_duplicates http_list socks5_list socks4_list).2.1 ∧
        x ∈ (remove_duplicates http_list socks5_list socks4_list).2.2)) ∧
    (∀ x, (x ∈ (remove_duplicates http_list socks5_list socks4_list).1 ∨
        x ∈ (remove_duplicates http_list socks5_list socks4_list).2.1 ∨
        x ∈ (remove_duplicates http_list socks5_list socks4_list).2.2) ↔
        (x ∈ http_list ∨ x ∈ socks5_list ∨ x ∈ socks4_list)) := by
  have key : ∀ x, (x ∈ (remove_duplicates http_list socks5_list socks4_list).1 ↔
        x ∈ http_list ∧ x ∉ socks5_list) ∧
      (x ∈ (remove_duplicates http_list socks5_list socks4_list).2.1 ↔ x ∈ socks5_list) ∧
      (x ∈ (remove_duplicates http_list socks5_list socks4_list).2.2 ↔
        x ∈ socks4_list ∧ x ∉ socks5_list ∧ x ∉ http_list) := by
    intro x
    by_cases h1 : x ∈ http_list <;> by_cases h5 : x ∈ socks5_list <;>
      by_cases h4 : x ∈ socks4_list <;>
      simp [remove_duplicates, List.mem_filter, List.mem_dedup, h1, h5, h4, dedup_target]
  have hh := fun x => (key x).1
  have hs5 := fun x => (key x).2.1
  have hs4 := fun x => (key x).2.2
  refine ⟨hs5, hh, hs4, ?_, ?_, ?_, ?_⟩
  · intro x ⟨h1, h2⟩
    exact ((hh x).mp h1).2 ((hs5 x).mp h2)
  · intro x ⟨h1, h2⟩
    exact ((hs4 x).mp h2).2.2 ((hh x).mp h1).1
  · intro x ⟨h1, h2⟩
    exact ((hs4 x).mp h2).2.1 ((hs5 x).mp h1)
  · intro x
    rw [hh x, hs5 x, hs4 x]
    by_cases h5 : x ∈ socks5_list <;> by_cases h1 : x ∈ http_list <;> simp [h1, h5]

/-- Witness for `remove_duplicates_spec`: with "a" in both the HTTP and
SOCKS5 inputs, the output keeps "a" in SOCKS5 and out of HTTP. -/
theorem remove_duplicates_spec_witness :
    "a" ∈ (remove_duplicates ["a", "b"] ["a"] ["c"]).2.1 ∧
    "a" ∉ (remove_duplicates ["a", "b"] ["a"] ["c"]).1 := by
  have h := remove_duplicates_spec ["a", "b"] ["a"] ["c"]
  exact ⟨(h.1 "a").mpr (by decide), fun hmem => ((h.2.1 "a").mp hmem).2 (by decide)⟩

/-- One element of a proxy's history deque: the `(score, success)` pair
appended by `load_history` (line 204) and by the merge loop in `main`
(line 314). -/
abbrev HistEntry := ℚ × Bool

/-- The in-memory history: `defaultdict(lambda: deque(maxlen=HISTORY_MAX_RUNS))`
(line 196), an address-to-window mapping whose default value is the empty
window. -/
abbrev History := String → List HistEntry

/-- The empty mapping produced when no persisted store exists. -/
def emptyHistory : History := fun _ => []

/-- One `append` on a `deque(maxlen=W)`: the new element goes to the right and
only the most recent `W` elements are retained (appending to a full deque
discards the leftmost element). -/
def windowAppend (W : Nat) (w : List HistEntry) (e : HistEntry) : List HistEntry :=
  ((w ++ [e])).drop ((w ++ [e]).length - W)

/-- A sequence of `deque.append` calls, as performed by any mix of
`load_history` row insertions and merge-loop insertions for one address. -/
def windowAppendAll (W : Nat) (w : List HistEntry) (es : List HistEntry) : List HistEntry :=
  es.foldl (windowAppend W) w

theorem windowAppend_length_le (W : Nat) (w : List HistEntry) (e : HistEntry) :
    (windowAppend W w e).length ≤ W := by
  simp only [windowAppend, List.length_drop]
  omega

theorem windowAppendAll_nil (W : Nat) (w : List HistEntry) : windowAppendAll W w [] = w := rfl

theorem windowAppendAll_cons (W : Nat) (w : List HistEntry) (e : HistEntry)
    (es : List HistEntry) :
    windowAppendAll W w (e :: es) = windowAppendAll W (windowAppend W w e) es := rfl

theorem windowAppend_drop (W : Nat) (l : List HistEntry) (e : HistEntry) :
    windowAppend W (l.drop (l.length - W)) e = (l ++ [e]).drop ((l ++ [e]).length - W) := by
  simp only [windowAppend]
  rw [← List.drop_append_of_le_length (by omega : l.length - W ≤ l.length)]
  rw [List.drop_drop]
  congr 1
  simp only [List.length_append, List.length_drop, List.length_cons, List.length_nil]
  omega

theorem windowAppendAll_eq_drop (W : Nat) (w es : List HistEntry) (hw : w.length ≤ W) :
    windowAppendAll W w es = (w ++ es).drop ((w ++ es).length - W) := by
  induction es using List.reverseRecOn with
  | nil =>
      simp only [windowAppendAll, List.foldl_nil, List.append_nil]
      rw [show w.length - W = 0 from by omega, List.drop_zero]
  | append_singleton es e ih =>
      rw [windowAppendAll, List.foldl_append, List.foldl_cons, List.foldl_nil,
        ← windowAppendAll, ih, windowAppend_drop, List.append_assoc]

/-- C4: every endpoint window produced by any sequence of appends (history
loads and merges both insert through `deque(maxlen=HISTORY_MAX_RUNS).append`)
has length at most `HISTORY_MAX_RUNS`; appending to a full window evicts the
oldest entry (head) in FIFO order; and the retained window is always the
final (most recent) segment of the full append sequence — entries enter the
sequence in timestamp order, so these are the most recent `W` by timestamp. -/
theorem rolling_window_bound (w es : List HistEntry) (e : HistEntry) :
    (es ≠ [] → (windowAppendAll HISTORY_MAX_RUNS w es).length ≤ HISTORY_MAX_RUNS) ∧
    (w.length = HISTORY_MAX_RUNS →
      windowAppend HISTORY_MAX_RUNS w e = w.tail ++ [e]) ∧
    (w.length ≤ HISTORY_MAX_RUNS →
      windowAppendAll HISTORY_MAX_RUNS w es =
        (w ++ es).drop ((w ++ es).length - HISTORY_MAX_RUNS)) := by
  refine ⟨?_, ?_, fun hw => windowAppendAll_eq_drop _ w es hw⟩
  · intro hes
    rcases es with _ | ⟨a, t⟩
    · exact absurd rfl hes
    · rw [windowAppendAll_cons]
      have h : ∀ u : List HistEntry, ∀ v : List HistEntry, v.length ≤ HISTORY_MAX_RUNS →
          (windowAppendAll HISTORY_MAX_RUNS v u).length ≤ HISTORY_MAX_RUNS := by
        intro u
        induction u with
        | nil => intro v hv; exact hv
        | cons b t ih =>
            intro v hv
            rw [windowAppendAll_cons]
            exact ih _ (windowAppend_length_le _ _ _)
      exact h t _ (windowAppend_length_le _ _ _)
  · intro hw
    have hne : w ≠ [] := by
      intro h
      rw [h] at hw
      simp [HISTORY_MAX_RUNS] at hw
    simp only [windowAppend, List.length_append, List.length_cons, List.length_nil, hw]
    rw [show HISTORY_MAX_RUNS + (0 + 1) - HISTORY_MAX_RUNS = 1 from by omega]
    rcases w with _ | ⟨x, t⟩
    · exact absurd rfl hne
    · simp

/-- Witness for `rolling_window_bound`: a full 10-entry window receives an
11th entry; the head is evicted and the result is the most recent 10. -/
theorem rolling_window_bound_witness :
    (([ ((1 : ℚ), true) ] : List HistEntry) ≠ []) ∧
    (windowAppendAll HISTORY_MAX_RUNS
        [((1 : ℚ), true), (2, true), (3, true), (4, true), (5, true),
         (6, true), (7, true), (8, true), (9, true), (10, true)]
        [(1, true)]).length ≤ HISTORY_MAX_RUNS ∧
    windowAppend HISTORY_MAX_RUNS
        [((1 : ℚ), true), (2, true), (3, true), (4, true), (5, true),
         (6, true), (7, true), (8, true), (9, true), (10, true)] (11, false) =
      [((2 : ℚ), true), (3, true), (4, true), (5, true), (6, true),
       (7, true), (8, true), (9, true), (10, true), (11, false)] ∧
    windowAppendAll HISTORY_MAX_RUNS [((1 : ℚ), true)] [(2, false)] =
      (([((1 : ℚ), true)] ++ [(2, false)]).drop
        (([((1 : ℚ), true)] ++ [(2, false)]).length - HISTORY_MAX_RUNS)) := by
  have h := rolling_window_bound
    [((1 : ℚ), true), (2, true), (3, true), (4, true), (5, true),
     (6, true), (7, true), (8, true), (9, true), (10, true)]
    [((1 : ℚ), true)] ((11 : ℚ), false)
  refine ⟨by decide, h.1 (by decide), ?_, ?_⟩
  · rw [h.2.1 (by decide)]
    decide
  · exact (rolling_window_bound [((1 : ℚ), true)] [((2 : ℚ), false)] ((2 : ℚ), false)).2.2
      (by decide)

/-- The merge loop in `main` (lines 312-315): each Performance Stage result
appends `(sc, success)` to `history[proxy]`. -/
def merge_history (h : History) (results : List ProbeResult) : History :=
  results.foldl
    (fun h r => fun q =>
      if q = r.proxy then windowAppend HISTORY_MAX_RUNS (h q) (r.score, r.success) else h q)
    h

/-- The `(score, success)` entries contributed to address `p` by a result
list, in order. -/
def entriesFor (results : List ProbeResult) (p : String) : List HistEntry :=
  (results.filter fun r => r.proxy == p).map fun r => (r.score, r.success)

theorem merge_history_apply (h : History) (results : List ProbeResult) (p : String) :
    merge_history h results p = windowAppendAll HISTORY_MAX_RUNS (h p) (entriesFor results p) := by
  induction results generalizing h with
  | nil => rfl
  | cons r rs ih =>
      have step : merge_history h (r :: rs) p =
          merge_history (fun q =>
            if q = r.proxy then windowAppend HISTORY_MAX_RUNS (h q) (r.score, r.success)
            else h q) rs p := rfl
      rw [step, ih]
      by_cases hp : r.proxy = p
      · have h1 : (if p = r.proxy
            then windowAppend HISTORY_MAX_RUNS (h p) (r.score, r.success) else h p) =
            windowAppend HISTORY_MAX_RUNS (h p) (r.score, r.success) := if_pos hp.symm
        have h2 : entriesFor (r :: rs) p = (r.score, r.success) :: entriesFor rs p := by
          simp [entriesFor, List.filter_cons, hp]
        rw [h1, h2, windowAppendAll_cons]
      · have h1 : (if p = r.proxy
            then windowAppend HISTORY_MAX_RUNS (h p) (r.score, r.success) else h p) = h p :=
          if_neg fun hq => hp hq.symm
        have h2 : entriesFor (r :: rs) p = entriesFor rs p := by
          simp [entriesFor, List.filter_cons, hp]
        rw [h1, h2]

/-- The history-affecting part of `main` (lines 283-315): deduplicate, filter
each protocol list through the Prescreen Stage, run the Performance Stage on
the survivors, and merge the results into the loaded history.  Prescreen
classifications are consumed only as the survivor filter; they are never
written to the history. -/
def main_merged_history (loaded : History) (resp : String → Bool)
    (net : String → NetResult) (http_list socks5_list socks4_list : List String) : History :=
  let d := remove_duplicates http_list socks5_list socks4_list
  let http_to_test := pre_screen_proxies resp d.1
  let socks5_to_test := pre_screen_proxies resp d.2.1
  let socks4_to_test := pre_screen_proxies resp d.2.2
  let all_results := run_tests net http_to_test "http" ++
    run_tests net socks5_to_test "socks5" ++ run_tests net socks4_to_test "socks4"
  merge_history loaded all_results

theorem entriesFor_run_tests_of_not_mem (net : String → NetResult) (l : List String)
    (scheme p : String) (hp : p ∉ l) : entriesFor (run_tests net l scheme) p = [] := by
  simp only [entriesFor, run_tests, List.map_eq_nil_iff, List.filter_eq_nil_iff]
  intro r hr
  rcases List.mem_map.mp hr with ⟨q, hq, rfl⟩
  rw [try_proxy_proxy]
  simp only [beq_iff_eq]
  intro h
  exact hp (h ▸ hq)

/-- C7: after the merge, each address's window is exactly the loaded window
extended by one entry per Performance Stage outcome for that address (with
FIFO eviction), and an address classified dead by the Prescreen Stage — hence
absent from every Performance Stage input — has its history left unchanged. -/
theorem merge_history_spec (loaded : History) (resp : String → Bool)
    (net : String → NetResult) (http_list socks5_list socks4_list : List String)
    (results : List ProbeResult) (p : String) :
    (merge_history loaded results p =
      windowAppendAll HISTORY_MAX_RUNS (loaded p) (entriesFor results p)) ∧
    (entriesFor results p = [] → merge_history loaded results p = loaded p) ∧
    (resp p = false →
      main_merged_history loaded resp net http_list socks5_list socks4_list p = loaded p) := by
  refine ⟨merge_history_apply loaded results p, ?_, ?_⟩
  · intro he
    rw [merge_history_apply, he, windowAppendAll_nil]
  · intro hresp
    have hnot : ∀ l : List String, p ∉ pre_screen_proxies resp l := by
      intro l hl
      have := (List.mem_filter.mp hl).2
      rw [hresp] at this
      exact Bool.false_ne_true this
    simp only [main_merged_history]
    rw [merge_history_apply]
    have hsplit : ∀ a b : List ProbeResult, entriesFor (a ++ b) p =
        entriesFor a p ++ entriesFor b p := by
      intro a b
      simp [entriesFor, List.filter_append]
    rw [hsplit, hsplit, entriesFor_run_tests_of_not_mem _ _ _ _ (hnot _),
      entriesFor_run_tests_of_not_mem _ _ _ _ (hnot _),
      entriesFor_run_tests_of_not_mem _ _ _ _ (hnot _)]
    rfl

/-- Witness for `merge_history_spec`: one HTTP result for `"a"` is merged;
`"b"` has no outcome and is dead at prescreen, so its window is untouched. -/
theorem merge_history_spec_witness :
    (entriesFor [⟨"a", "http", some 1, some 5, 5, true⟩] "b" = [] →
      merge_history emptyHistory [⟨"a", "http", some 1, some 5, 5, true⟩] "b" =
        emptyHistory "b") ∧
    main_merged_history emptyHistory (fun _ => false) (fun _ => .fail) ["b"] [] [] "b" =
      emptyHistory "b" := by
  have h := merge_history_spec emptyHistory (fun _ => false) (fun _ => .fail)
    ["b"] [] [] [⟨"a", "http", some 1, some 5, 5, true⟩] "b"
  exact ⟨h.2.1, h.2.2 rfl⟩

/-- One row of the persisted history file as `csv.DictReader` yields it
(lines 199-204).  `scoreField` is the result of `float(row['Score'])`:
`none` models a `Score` cell whose text does not parse as a float, on which
Python's `float` raises `ValueError`.  `successField` is the raw text of the
`Success` cell. -/
structure HistRow where
  proxy : String
  scoreField : Option ℚ
  successField : String
deriving DecidableEq

/-- `load_history` (lines 195-205).  The argument is the persisted store:
`none` when `os.path.exists(HISTORY_FILE)` is false, otherwise the parsed
rows.  A missing file yields the empty mapping (and the source prints no
warning); a row whose score fails to parse makes the uncaught `ValueError`
propagate, modelled as `Except.error` — there is no try/except in the
source function. -/
def load_history (file : Option (List HistRow)) : Except String History :=
  match file with
  | none => .ok emptyHistory
  | some rows =>
      rows.foldlM
        (fun h row =>
          match row.scoreField with
          | none => .error "could not convert string to float"
          | some score =>
              .ok fun q =>
                if q = row.proxy then
                  windowAppend HISTORY_MAX_RUNS (h q) (score, row.successField == "1")
                else h q)
        emptyHistory

/-- C8 counterexample: a history file that exists but whose single row has an
unparseable score makes `load_history` raise instead of degrading to the
empty mapping, so loading the History Store can be a fatal error. -/
theorem load_history_raises_on_bad_row :
    load_history (some [⟨"1.2.3.4:80", none, "1"⟩]) =
      .error "could not convert string to float" := rfl

/-- C8 amended: a missing persisted store yields the empty mapping and the
pipeline continues (the source emits no warning for this case), but the
absence of error is guaranteed only when every row's score parses; such
well-formed stores always load successfully. -/
theorem load_history_missing_file (rows : List HistRow) :
    load_history none = .ok emptyHistory ∧
    ((∀ r ∈ rows, r.scoreField.isSome) → ∃ h, load_history (some rows) = .ok h) := by
  refine ⟨rfl, ?_⟩
  intro hrows
  suffices h : ∀ rs : List HistRow, (∀ r ∈ rs, r.scoreField.isSome) → ∀ h0 : History,
      ∃ h1, rs.foldlM
        (fun h row =>
          match row.scoreField with
          | none => Except.error "could not convert string to float"
          | some score =>
              Except.ok fun q =>
                if q = row.proxy then
                  windowAppend HISTORY_MAX_RUNS (h q) (score, row.successField == "1")
                else h q)
        h0 = Except.ok h1 by
    exact h rows hrows emptyHistory
  intro rs
  induction rs with
  | nil => exact fun _ h0 => ⟨h0, rfl⟩
  | cons r t ih =>
      intro hall h0
      rcases Option.isSome_iff_exists.mp (hall r (List.mem_cons_self r t)) with ⟨s, hs⟩
      have := ih fun x hx => hall x (List.mem_cons_of_mem r hx)
      rcases this (fun q =>
        if q = r.proxy then windowAppend HISTORY_MAX_RUNS (h0 q) (s, r.successField == "1")
        else h0 q) with ⟨h1, hh1⟩
      refine ⟨h1, ?_⟩
      simp only [List.foldlM_cons, hs]
      exact hh1

/-- Witness for `load_history_missing_file`: a one-row store with a parseable
score loads successfully. -/
theorem load_history_missing_file_witness :
    ∃ h, load_history (some [⟨"1.2.3.4:80", some 2, "1"⟩]) = .ok h :=
  (load_history_missing_file [⟨"1.2.3.4:80", some 2, "1"⟩]).2 (by decide)

/-- One line of the persisted history file, structurally: the header row or
one `writer.writerow([proxy, int(time()), score, success])` data row
(the two-decimal text rendering of the score is immaterial here). -/
inductive HistLine where
  | header
  | entry (proxy : String) (timestamp : Nat) (score : ℚ) (success : Bool)
deriving DecidableEq

/-- The complete new file content written by `save_history` (lines 207-213):
the header, then one row per entry of each address's window, every row
stamped with the single current time `now`.  `items` is `history.items()` in
dict order. -/
def save_history_lines (items : List (String × List HistEntry)) (now : Nat) : List HistLine :=
  HistLine.header ::
    items.flatMap fun pe => pe.2.map fun e => .entry pe.1 now e.1 e.2

/-- The sequence of durable on-disk states of HISTORY_FILE during
`save_history`, starting from the pre-existing content `old`:
`open(HISTORY_FILE, "w")` truncates the file in place (state `[]`), then each
`writerow` appends one line until the full new content is reached.  The
source uses no temporary file and no rename. -/
def save_history_states (old : List HistLine) (items : List (String × List HistEntry))
    (now : Nat) : List (List HistLine) :=
  old :: (List.range ((save_history_lines items now).length + 1)).map
    fun k => (save_history_lines items now).take k

/-- C9 counterexample: saving a one-entry history over a non-empty previous
store passes through the durable state `[HistLine.header]`, which is neither
the complete previous version nor the complete new version — `save_history`
truncates in place rather than write-new-then-replace, so a crash mid-write
loses the old store. -/
theorem save_history_not_atomic :
    [HistLine.header] ∈
      save_history_states [HistLine.header, .entry "a" 3 1 true] [("b", [(2, true)])] 5 ∧
    [HistLine.header] ≠ [HistLine.header, HistLine.entry "a" 3 1 true] ∧
    [HistLine.header] ≠ save_history_lines [("b", [(2, true)])] 5 := by
  refine ⟨?_, by decide, by decide⟩
  have : [HistLine.header] = (save_history_lines [("b", [(2, true)])] 5).take 1 := by decide
  rw [this, save_history_states]
  refine List.mem_cons_of_mem _ (List.mem_map.mpr ⟨1, ?_, rfl⟩)
  decide

/-- C9 amended: `save_history` rewrites HISTORY_FILE in place — after the
initial truncation every intermediate durable state is a left segment
(initial run) of the new content, the full new content is reached, and the
old content is no longer available once writing has begun; atomic
write-new-then-replace is not performed. -/
theorem save_history_states_spec (old : List HistLine)
    (items : List (String × List HistEntry)) (now : Nat) :
    (∀ s ∈ save_history_states old items now,
      s = old ∨ ∃ t, s ++ t = save_history_lines items now) ∧
    save_history_lines items now ∈ save_history_states old items now ∧
    [] ∈ save_history_states old items now := by
  refine ⟨?_, ?_, ?_⟩
  · intro s hs
    rcases List.mem_cons.mp hs with h | h
    · exact Or.inl h
    · rcases List.mem_map.mp h with ⟨k, -, rfl⟩
      exact Or.inr ⟨(save_history_lines items now).drop k, List.take_append_drop _ _⟩
  · refine List.mem_cons_of_mem _ (List.mem_map.mpr
      ⟨(save_history_lines items now).length, ?_, List.take_length _⟩)
    exact List.mem_range.mpr (Nat.lt_succ_self _)
  · refine List.mem_cons_of_mem _ (List.mem_map.mpr ⟨0, ?_, List.take_zero _⟩)
    exact List.mem_range.mpr (Nat.succ_pos _)

/-- Witness for `save_history_states_spec`: every state of the concrete save
from `save_history_not_atomic`'s scenario is the old content or a left
segment of the new content. -/
theorem save_history_states_spec_witness :
    ([HistLine.header, HistLine.entry "b" 5 2 true] ∈
      save_history_states [HistLine.header, .entry "a" 3 1 true] [("b", [(2, true)])] 5) ∧
    ([HistLine.header, HistLine.entry "a" 3 1 true] = [HistLine.header, .entry "a" 3 1 true] ∨
      ∃ t, [HistLine.header, HistLine.entry "a" 3 1 true] ++ t =
        save_history_lines [("b", [(2, true)])] 5) := by
  have h := save_history_states_spec [HistLine.header, .entry "a" 3 1 true]
    [("b", [(2, true)])] 5
  refine ⟨?_, h.1 _ (List.mem_cons_self _ _)⟩
  have : save_history_lines [("b", [(2, true)])] 5 =
      [HistLine.header, HistLine.entry "b" 5 2 true] := by decide
  exact this ▸ h.2.1

/-- One row of the per-proxy report built in `main` (lines 317-325):
`(proxy, scheme, lat, spd, sc, lt, rr, ra)`. -/
structure Row where
  proxy : String
  scheme : String
  lat : Option ℚ
  spd : Option ℚ
  sc : ℚ
  lt : ℚ
  rr : ℚ
  ra : ℚ
deriving DecidableEq

/-- The Scorer block of `main` (lines 318-325): from the current result `r`
and its post-merge window `entries`, derive the long-term score (mean window
score), the response rate (percentage of succeeded entries) and the response
average (mean score over succeeded entries, 0.0 when no entry succeeded). -/
def score_row (r : ProbeResult) (entries : List HistEntry) : Row :=
  let lt : ℚ :=
    if entries ≠ [] then ((entries.map Prod.fst).sum) / entries.length else r.score
  let rr : ℚ :=
    if entries ≠ [] then ((entries.filter fun e => e.2).length : ℚ) / entries.length * 100
    else if r.success then 100 else 0
  let ss : List ℚ := (entries.filter fun e => e.2).map Prod.fst
  let ra : ℚ := if ss ≠ [] then ss.sum / ss.length else 0
  ⟨r.proxy, r.scheme, r.lat, r.spd, r.score, lt, rr, ra⟩

/-- Stable insert for a descending sort by `key`: the new element passes
elements with strictly greater key and stops at the first element whose key
is not greater, so earlier input elements precede later ones on ties. -/
def insertDesc (key : α → ℚ) (x : α) : List α → List α
  | [] => [x]
  | y :: ys => if key x < key y then y :: insertDesc key x ys else x :: y :: ys

/-- Stable descending sort by `key`: the semantics of Python's
`sorted(-, key, reverse=True)` / `list.sort(key, reverse=True)` (CPython's
sort is stable; any stable sort computes the same list). -/
def sortDesc (key : α → ℚ) : List α → List α
  | [] => []
  | x :: xs => insertDesc key x (sortDesc key xs)

theorem insertDesc_perm (key : α → ℚ) (x : α) (l : List α) :
    (insertDesc key x l).Perm (x :: l) := by
  induction l with
  | nil => exact List.Perm.refl _
  | cons y ys ih =>
      by_cases h : key x < key y
      · rw [insertDesc, if_pos h]
        exact (ih.cons y).trans (List.Perm.swap x y ys)
      · rw [insertDesc, if_neg h]

theorem sortDesc_perm (key : α → ℚ) (l : List α) : (sortDesc key l).Perm l := by
  induction l with
  | nil => exact List.Perm.refl _
  | cons x xs ih => exact (insertDesc_perm key x (sortDesc key xs)).trans (ih.cons x)

theorem insertDesc_pairwise (key : α → ℚ) (x : α) (l : List α)
    (hl : l.Pairwise fun a b => key b ≤ key a) :
    (insertDesc key x l).Pairwise fun a b => key b ≤ key a := by
  induction l with
  | nil => exact List.pairwise_singleton _ x
  | cons y ys ih =>
      rcases List.pairwise_cons.mp hl with ⟨hy, hys⟩
      by_cases h : key x < key y
      · rw [insertDesc, if_pos h]
        refine List.pairwise_cons.mpr ⟨?_, ih hys⟩
        intro z hz
        rcases List.mem_cons.mp ((insertDesc_perm key x ys).mem_iff.mp hz) with rfl | hz2
        · exact le_of_lt h
        · exact hy z hz2
      · rw [insertDesc, if_neg h]
        refine List.pairwise_cons.mpr ⟨?_, hl⟩
        intro z hz
        rcases List.mem_cons.mp hz with rfl | hz
        · exact le_of_not_lt h
        · exact le_trans (hy z hz) (le_of_not_lt h)

theorem sortDesc_pairwise (key : α → ℚ) (l : List α) :
    (sortDesc key l).Pairwise fun a b => key b ≤ key a := by
  induction l with
  | nil => exact List.Pairwise.nil
  | cons x xs ih => exact insertDesc_pairwise key x (sortDesc key xs) ih

/-- Line 327 of `main`: `sorted(rows, key=lambda r: r[5], reverse=True)` —
the report rows sorted descending by long-term score. -/
def main_sorted_rows (rows : List Row) : List Row :=
  sortDesc (fun r => r.lt) rows

/-- The qualification test of `save_mb_proxies` (lines 225-227):
current score at least `MIN_SCORE_THRESHOLD`, response rate at least
`MIN_RESPONSE_RATE`, and latency and speed both present (the current attempt
succeeded). -/
def qualifies (r : Row) : Bool :=
  decide (MIN_SCORE_THRESHOLD ≤ r.sc) && decide (MIN_RESPONSE_RATE ≤ r.rr) &&
    r.lat.isSome && r.spd.isSome

/-- `save_mb_proxies` (lines 215-260), returning the list of proxies written
to MBProxies.txt: the qualifying rows as `(proxy, sc)` pairs, re-sorted
descending by current score (line 235), with the `total_qualified <=
MIN_PROXIES_COUNT` branch kept verbatim — both arms use the whole qualified
list.  When nothing qualifies the function warns and returns without
writing, so the written list is empty. -/
def save_mb_proxies (sorted_rows : List Row) : List String :=
  let qualified_proxies := (sorted_rows.filter qualifies).map fun r => (r.proxy, r.sc)
  if qualified_proxies = [] then []
  else
    let qualified_sorted := sortDesc (fun x => x.2) qualified_proxies
    let final_proxies :=
      if qualified_sorted.length ≤ MIN_PROXIES_COUNT then qualified_sorted
      else qualified_sorted
    final_proxies.map Prod.fst

/-- C1: the proxies written to MBProxies.txt are exactly (as a multiset) the
proxies of the qualifying rows — current score at least the threshold,
response rate at least the minimum, latency and speed present — and in
particular no non-qualifying proxy is ever added to reach
`MIN_PROXIES_COUNT`.  Stated over the full pipeline order
`main_sorted_rows rows`, so it also covers runs with fewer qualifying rows
than the minimum count. -/
theorem save_mb_proxies_exactly_qualifying (rows : List Row) :
    (save_mb_proxies (main_sorted_rows rows)).Perm
      ((rows.filter qualifies).map fun r => r.proxy) ∧
    (save_mb_proxies (main_sorted_rows rows)).length = (rows.filter qualifies).length := by
  have hfilter : ((main_sorted_rows rows).filter qualifies).Perm (rows.filter qualifies) := by
    simp only [main_sorted_rows]
    exact (sortDesc_perm (fun r => r.lt) rows).filter qualifies
  have hperm : (save_mb_proxies (main_sorted_rows rows)).Perm
      ((rows.filter qualifies).map fun r => r.proxy) := by
    simp only [save_mb_proxies]
    by_cases hq : ((main_sorted_rows rows).filter qualifies).map
        (fun r => (r.proxy, r.sc)) = []
    · rw [if_pos hq]
      have h0 : (main_sorted_rows rows).filter qualifies = [] :=
        List.map_eq_nil_iff.mp hq
      have h1 : rows.filter qualifies = [] := by
        rw [h0] at hfilter
        exact hfilter.symm.eq_nil
      rw [h1]
      exact List.Perm.refl _
    · rw [if_neg hq, ite_self]
      refine ((sortDesc_perm (fun x : String × ℚ => x.2)
        (((main_sorted_rows rows).filter qualifies).map
          fun r => (r.proxy, r.sc))).map Prod.fst).trans ?_
      have h3 : ((((main_sorted_rows rows).filter qualifies).map
          fun r => (r.proxy, r.sc)).map Prod.fst) =
          ((main_sorted_rows rows).filter qualifies).map fun r => r.proxy := by
        simp [List.map_map, Function.comp]
      rw [h3]
      exact hfilter.map fun r => r.proxy
  refine ⟨hperm, ?_⟩
  rw [hperm.length_eq, List.length_map]

/-- C2 counterexample: two qualifying rows, one with current score 1 and
long-term score 5, the other with current score 2 and long-term score 1.
`sorted(rows, key=r[5], reverse=True)` puts the long-term-5 row first, but
`save_mb_proxies` re-sorts by current score (line 235), so the written list
starts with the row whose long-term score is strictly smaller — the final
file is not ordered descending by long-term score. -/
theorem mb_output_not_sorted_by_long_term :
    save_mb_proxies (main_sorted_rows
      [⟨"10.0.0.1:80", "http", some 1, some 5, 1, 5, 100, 5⟩,
       ⟨"10.0.0.2:80", "http", some 1, some 10, 2, 1, 100, 2⟩]) =
      ["10.0.0.2:80", "10.0.0.1:80"] ∧
    (⟨"10.0.0.2:80", "http", some 1, some 10, 2, 1, 100, 2⟩ : Row).lt <
      (⟨"10.0.0.1:80", "http", some 1, some 5, 1, 5, 100, 5⟩ : Row).lt := by
  constructor
  · norm_num [save_mb_proxies, main_sorted_rows, sortDesc, insertDesc, qualifies,
      List.filter, MIN_SCORE_THRESHOLD, MIN_RESPONSE_RATE, MIN_PROXIES_COUNT]
    intro h
    simp at h
  · decide

/-- C2 amended: the detailed report rows are stable-sorted descending by
long-term score, but the final MBProxies list is the qualifying `(proxy,
currentScore)` pairs re-sorted descending by **current** score (stable, no
address tie-break), projected to addresses; adjacent entries are
non-increasing in current score. -/
theorem save_mb_proxies_sorted_by_current_score (sr : List Row) :
    (sortDesc (fun x : String × ℚ => x.2)
      ((sr.filter qualifies).map fun r => (r.proxy, r.sc))).Pairwise
        (fun a b => b.2 ≤ a.2) ∧
    save_mb_proxies sr =
      (sortDesc (fun x : String × ℚ => x.2)
        ((sr.filter qualifies).map fun r => (r.proxy, r.sc))).map Prod.fst ∧
    (main_sorted_rows sr).Pairwise fun a b => b.lt ≤ a.lt := by
  refine ⟨sortDesc_pairwise _ _, ?_, sortDesc_pairwise _ sr⟩
  simp only [save_mb_proxies]
  by_cases hq : (sr.filter qualifies).map (fun r => (r.proxy, r.sc)) = []
  · rw [if_pos hq, hq]
    rfl
  · rw [if_neg hq, ite_self]

/-- C10: when every entry of an endpoint's window records a failure, the
filtered success list is empty and the Scorer reports `responseAvg = 0.0`
instead of attempting the undefined mean. -/
theorem score_row_response_avg_zero (r : ProbeResult) (entries : List HistEntry)
    (h : ∀ e ∈ entries, e.2 = false) :
    (score_row r entries).ra = 0 := by
  have hf : entries.filter (fun e => e.2) = [] :=
    List.filter_eq_nil_iff.mpr fun e he => by simp [h e he]
  simp [score_row, hf]

/-- Witness for `score_row_response_avg_zero`: a window holding two failed
attempts yields response average 0. -/
theorem score_row_response_avg_zero_witness :
    (score_row ⟨"a", "http", none, none, 0, false⟩ [(3, false), (1, false)]).ra = 0 :=
  score_row_response_avg_zero ⟨"a", "http", none, none, 0, false⟩ [(3, false), (1, false)]
    (by decide)

end ProxyBenchmark
